import Mathlib

/-!
# Habit tracker: statistics and calendar-grid engine, shallow embedding

This file embeds the statistics engine (`src/hooks/useHabits.ts`) and the
calendar-grid builder (`src/components/HabitGraph.tsx`) of the habit-tracker
repository, and proves the claims about them.

Modelling conventions:
* Calendar days are integers (days since an arbitrary epoch at local
  midnight); the source's `Date` values normalised with `setHours(0,0,0,0)`
  and its `Math.floor((a - b) / 86400000)` day differences become plain
  integer subtraction.
* `createdAt` and `now` (used only by `getHabitAverage`) are integer
  timestamps in milliseconds, as in the source.
* Numeric entry values are rationals `ℚ` (exact versions of the JS numbers).
* JavaScript's `habit.target || 1` maps `undefined` and `0` to `1`
  (both are falsy), which `targetOrOne` reproduces.
* `Array.prototype.sort` with a numeric comparator on the date integers is
  modelled by `sortAsc` / `sortDesc`; since the order on `ℤ` is total and
  antisymmetric the sorted list is uniquely determined by the multiset, so
  the descending sort is the reverse of the ascending one.
-/

inductive HabitType where
  | checkbox
  | number
deriving DecidableEq

structure Entry where
  date : Int
  value : ℚ
deriving DecidableEq

structure Habit where
  id : String
  name : String
  description : Option String
  color : String
  type : HabitType
  target : Option ℚ
  unit : Option String
  createdAt : Int
  completedDates : List Int
  entries : List Entry
deriving DecidableEq

/-- `habit.target || 1`: JavaScript `||` replaces the falsy values
`undefined` and `0` by the default `1`. -/
def targetOrOne (h : Habit) : ℚ :=
  match h.target with
  | none => 1
  | some t => if t = 0 then 1 else t

/-- Ascending numeric sort, `sort((a, b) => a.getTime() - b.getTime())`. -/
def sortAsc (l : List Int) : List Int :=
  l.insertionSort (· ≤ ·)

/-- Descending numeric sort, `sort((a, b) => b.getTime() - a.getTime())`:
the reverse of the ascending sort (unique since the order is total). -/
def sortDesc (l : List Int) : List Int :=
  (sortAsc l).reverse

/-- The streak-walk loop of `getHabitStreak` (`useHabits.ts:149-160` and the
identical loop at lines 185-196): starting at loop index `i`, count how many
leading entries of the (descending-sorted) list match the expected date
`today - (gap + i)`, stopping at the first mismatch. -/
def streakFrom : List Int → Int → Int → Nat → Nat
  | [], _, _, _ => 0
  | d :: rest, today, gap, i =>
    if d = today - (gap + (i : Int)) then streakFrom rest today gap (i + 1) + 1
    else 0

/-- The checkbox current-streak algorithm (`useHabits.ts:131-162`), shared
shape of both branches of `getHabitStreak`: guard on empty history, sort
descending, compute the day gap to today, bail out when it exceeds 1,
otherwise walk the sorted dates. -/
def currentStreakOf (today : Int) (dates : List Int) : Nat :=
  if dates = [] then 0
  else
    let sorted := sortDesc dates
    let gap := today - sorted.headD 0
    if 1 < gap then 0
    else streakFrom sorted today gap 0

/-- The dates of the entries meeting the target,
`entries.filter(e => e.value >= (habit.target || 1)).map(e => e.date)`. -/
def filteredDates (h : Habit) : List Int :=
  (h.entries.filter (fun e => targetOrOne h ≤ e.value)).map (·.date)

/-- `getHabitStreak` (`useHabits.ts:130-200`).  The checkbox branch is
`currentStreakOf` on `completedDates`; the number branch repeats the same
code on the target-filtered entry dates, with its two emptiness guards. -/
def getHabitStreak (today : Int) (h : Habit) : Nat :=
  match h.type with
  | .checkbox => currentStreakOf today h.completedDates
  | .number =>
    if h.entries = [] then 0
    else
      let sortedEntries := sortDesc (filteredDates h)
      if sortedEntries = [] then 0
      else
        let gap := today - sortedEntries.headD 0
        if 1 < gap then 0
        else streakFrom sortedEntries today gap 0

/-- The scan loop of `getLongestStreak` (`useHabits.ts:213-224` and the
identical loop at lines 240-251): walk the ascending-sorted dates keeping
the running streak and the maximum; a day gap of exactly 1 extends the
running streak, anything else resets it to 1. -/
def longestAux : Int → List Int → Nat → Nat → Nat
  | _, [], _, longest => longest
  | prev, d :: rest, cur, longest =>
    if d - prev = 1 then longestAux d rest (cur + 1) (max longest (cur + 1))
    else longestAux d rest 1 longest

/-- The checkbox longest-streak algorithm (`useHabits.ts:203-226`): guard on
empty history, sort ascending, run the scan with both counters at 1. -/
def longestStreakOf (dates : List Int) : Nat :=
  if dates = [] then 0
  else
    match sortAsc dates with
    | [] => 0
    | a :: rest => longestAux a rest 1 1

/-- `getLongestStreak` (`useHabits.ts:202-255`).  The number branch repeats
the checkbox code on the target-filtered entry dates; its post-sort
emptiness guard (`successfulDates.length === 0`) coincides with the `[]`
case of the match. -/
def getLongestStreak (h : Habit) : Nat :=
  match h.type with
  | .checkbox => longestStreakOf h.completedDates
  | .number =>
    if h.entries = [] then 0
    else
      match sortAsc (filteredDates h) with
      | [] => 0
      | a :: rest => longestAux a rest 1 1

/-- `Math.max(1, Math.ceil((now - createdAt) / 86400000))`
(`useHabits.ts:259`), with the timestamps in milliseconds. -/
def totalDaysSinceCreation (now createdAt : Int) : Int :=
  max 1 ⌈((now - createdAt : Int) : ℚ) / 86400000⌉

/-- `getHabitAverage` (`useHabits.ts:257-266`). -/
def getHabitAverage (now : Int) (h : Habit) : ℚ :=
  match h.type with
  | .checkbox =>
    (h.completedDates.length : ℚ) / (totalDaysSinceCreation now h.createdAt : ℚ)
  | .number =>
    if h.entries = [] then 0
    else (h.entries.foldl (fun sum e => sum + e.value) 0) / (h.entries.length : ℚ)

/-- `getHabitTotal` (`useHabits.ts:268-275`). -/
def getHabitTotal (h : Habit) : ℚ :=
  match h.type with
  | .checkbox => (h.completedDates.length : ℚ)
  | .number =>
    if h.entries = [] then 0
    else h.entries.foldl (fun sum e => sum + e.value) 0

/-- The population variance computed under the square root in
`getHabitStandardDeviation` (`useHabits.ts:283-285`). -/
def getHabitVariance (now : Int) (h : Habit) : ℚ :=
  (h.entries.foldl (fun sum e => sum + (e.value - getHabitAverage now h) ^ 2) 0) /
    (h.entries.length : ℚ)

/-- `getHabitStandardDeviation` (`useHabits.ts:277-288`): 0 for checkbox
habits and for fewer than 2 entries, otherwise `Math.sqrt` of the
population variance (modelled by the exact real square root). -/
noncomputable def getHabitStandardDeviation (now : Int) (h : Habit) : ℝ :=
  match h.type with
  | .checkbox => 0
  | .number =>
    if h.entries.length < 2 then 0
    else Real.sqrt (getHabitVariance now h)

/-- `isHabitCompletedToday` (`useHabits.ts:290-299`). -/
def isHabitCompletedToday (today : Int) (h : Habit) : Bool :=
  match h.type with
  | .checkbox => h.completedDates.contains today
  | .number =>
    match h.entries.find? (fun e => e.date == today) with
    | some e => decide (targetOrOne h ≤ e.value)
    | none => false

/-- `getTodayEntry` (`useHabits.ts:301-306`); `todayEntry?.value || 0`
yields the entry value when present (a stored `0` stays `0`) and `0`
otherwise. -/
def getTodayEntry (today : Int) (h : Habit) : ℚ :=
  match h.type with
  | .checkbox => 0
  | .number => ((h.entries.find? (fun e => e.date == today)).map (·.value)).getD 0

/-- The per-habit body of `toggleHabitCompletion`'s completed-dates update
(`useHabits.ts:89-96`): `indexOf`/`splice` removes the first occurrence of
the date when present, otherwise the date is pushed at the end. -/
def toggleDates (dates : List Int) (date : Int) : List Int :=
  if date ∈ dates then dates.erase date
  else dates ++ [date]

/-- The function mapped over the habit list by `toggleHabitCompletion`
(`useHabits.ts:87-101`). -/
def toggleOne (habitId : String) (date : Int) (h : Habit) : Habit :=
  if h.id = habitId ∧ h.type = .checkbox then
    { h with completedDates := toggleDates h.completedDates date }
  else h

/-- `toggleHabitCompletion` (`useHabits.ts:86-104`), restricted to the habit
list it transforms (persistence is outside the core). -/
def toggleHabitCompletion (habitId : String) (date : Int) (habits : List Habit) :
    List Habit :=
  habits.map (toggleOne habitId date)

/-- The per-habit entries update of `updateHabitEntry`
(`useHabits.ts:109-120`): `findIndex` returns the length when no entry
matches (the source's `-1` test becomes an in-bounds test); a found entry is
overwritten for positive values and spliced out otherwise; a missing entry
is pushed only for positive values. -/
def updateEntries (entries : List Entry) (date : Int) (value : ℚ) : List Entry :=
  let existingEntryIndex := entries.findIdx (fun e => e.date == date)
  if existingEntryIndex < entries.length then
    if 0 < value then entries.set existingEntryIndex ⟨date, value⟩
    else entries.eraseIdx existingEntryIndex
  else
    if 0 < value then entries ++ [⟨date, value⟩]
    else entries

/-- The function mapped over the habit list by `updateHabitEntry`
(`useHabits.ts:107-125`). -/
def updateOne (habitId : String) (date : Int) (value : ℚ) (h : Habit) : Habit :=
  if h.id = habitId ∧ h.type = .number then
    { h with entries := updateEntries h.entries date value }
  else h

/-- `updateHabitEntry` (`useHabits.ts:106-128`), restricted to the habit
list it transforms. -/
def updateHabitEntry (habitId : String) (date : Int) (value : ℚ)
    (habits : List Habit) : List Habit :=
  habits.map (updateOne habitId date value)

/-!
## The calendar grid (`HabitGraph.tsx`)
-/

/-- One populated grid cell (`HabitGraph.tsx:44-51`).  `dayOfWeek` models
`Date.getDay` for day numbers counted from an epoch falling on a Thursday
(weekday 4), as for the Unix epoch. -/
structure DayCell where
  date : Int
  isCompleted : Bool
  value : ℚ
  isWithinRange : Bool
  dayOfWeek : Int
deriving DecidableEq

def defaultDayCell : DayCell :=
  { date := 0, isCompleted := false, value := 0, isWithinRange := false, dayOfWeek := 0 }

/-- The day record built for one date of the 364-day window
(`HabitGraph.tsx:28-51`): checkbox habits test membership of the date in
`completedDates`; number habits look the date up in `entries`
(`entry?.value || 0` keeps a stored 0 at 0) and compare against the target. -/
def mkDayCell (h : Habit) (today date : Int) : DayCell :=
  match h.type with
  | .checkbox =>
    { date := date
      isCompleted := h.completedDates.contains date
      value := 0
      isWithinRange := decide (date ≤ today)
      dayOfWeek := (4 + date) % 7 }
  | .number =>
    let value := ((h.entries.find? (fun e => e.date == date)).map (·.value)).getD 0
    { date := date
      isCompleted := decide (targetOrOne h ≤ value)
      value := value
      isWithinRange := decide (date ≤ today)
      dayOfWeek := (4 + date) % 7 }

/-- The 364 day records from `today - 363` through `today`
(`HabitGraph.tsx:19-52`). -/
def allDays (h : Habit) (today : Int) : List DayCell :=
  (List.range 364).map (fun (i : Nat) => mkDayCell h today (today - 363 + (i : Int)))

/-- `totalCells - 364` (`HabitGraph.tsx:62-63`). -/
def emptyCellsAtStart : Int := 52 * 7 - 364

/-- The grid loop of `graphData` (`HabitGraph.tsx:56-83`): 52 week columns
of 7 rows; the cell at `(week, day)` holds day index
`week * 7 + day - emptyCellsAtStart`, and indices outside `[0, 364)` give a
`null` padding cell. -/
def graphData (h : Habit) (today : Int) : List (List (Option DayCell)) :=
  (List.range 52).map (fun (week : Nat) =>
    (List.range 7).map (fun (day : Nat) =>
      let cellIndex : Int := (week : Int) * 7 + (day : Int)
      let dayIndex : Int := cellIndex - emptyCellsAtStart
      if 0 ≤ dayIndex ∧ dayIndex < 364 then
        some ((allDays h today).getD dayIndex.toNat defaultDayCell)
      else none))

/-- Grid lookup by column and row, as done by the renderer when it wires a
cell to `handleCellClick`. -/
def cellAt (grid : List (List (Option DayCell))) (week day : Nat) : Option DayCell :=
  (grid.getD week []).getD day none

/-- `handleCellClick` (`HabitGraph.tsx:120-124`): the click payload
`(dateString, value, isCompleted)` is produced only for a populated cell
with `isWithinRange`; `null` padding cells are rendered without a click
handler. -/
def handleCellClick (day : Option DayCell) : Option (Int × ℚ × Bool) :=
  match day with
  | none => none
  | some d => if d.isWithinRange then some (d.date, d.value, d.isCompleted) else none

/-!
## Helper lemmas about the streak loops
-/

theorem streakFrom_le_length (t g : Int) :
    ∀ (l : List Int) (i : Nat), streakFrom l t g i ≤ l.length := by
  intro l
  induction l with
  | nil => intro i; simp [streakFrom]
  | cons d rest ih =>
    intro i
    simp only [streakFrom, List.length_cons]
    split
    · have := ih (i + 1); omega
    · omega

theorem streakFrom_matches (t g : Int) :
    ∀ (l : List Int) (i j : Nat), j < streakFrom l t g i →
      l.getD j 0 = t - (g + ((i + j : Nat) : Int)) := by
  intro l
  induction l with
  | nil => intro i j hj; simp [streakFrom] at hj
  | cons d rest ih =>
    intro i j hj
    simp only [streakFrom] at hj
    split at hj
    · rename_i hd
      cases j with
      | zero => simpa using hd
      | succ j' =>
        have h2 := ih (i + 1) j' (by omega)
        have h3 : i + 1 + j' = i + (j' + 1) := by omega
        rw [h3] at h2
        simpa using h2
    · omega

theorem streakFrom_maximal (t g : Int) :
    ∀ (l : List Int) (i : Nat),
      streakFrom l t g i = l.length ∨
      l.getD (streakFrom l t g i) 0 ≠
        t - (g + ((i + streakFrom l t g i : Nat) : Int)) := by
  intro l
  induction l with
  | nil => intro i; left; simp [streakFrom]
  | cons d rest ih =>
    intro i
    by_cases hd : d = t - (g + (i : Int))
    · have hs : streakFrom (d :: rest) t g i = streakFrom rest t g (i + 1) + 1 := by
        simp [streakFrom, hd]
      rcases ih (i + 1) with h | h
      · left; simp [hs, h]
      · right
        rw [hs, List.getD_cons_succ]
        have h3 : i + 1 + streakFrom rest t g (i + 1) =
            i + (streakFrom rest t g (i + 1) + 1) := by omega
        rw [h3] at h
        exact h
    · right
      have hs : streakFrom (d :: rest) t g i = 0 := by simp [streakFrom, hd]
      rw [hs]
      simpa using hd

/-- Descending run of consecutive days `m, m-1, ..., m-(k-1)`. -/
def descChain (m : Int) (k : Nat) : List Int :=
  (List.range k).map (fun (j : Nat) => m - (j : Int))

/-- Ascending run of consecutive days `c, c+1, ..., c+(k-1)`. -/
def chainList (c : Int) (k : Nat) : List Int :=
  (List.range k).map (fun (j : Nat) => c + (j : Int))

theorem descChain_succ (m : Int) (k : Nat) :
    descChain m (k + 1) = m :: descChain (m - 1) k := by
  simp only [descChain, List.range_succ_eq_map, List.map_cons, List.map_map,
    Nat.cast_zero, sub_zero]
  congr 1
  apply List.map_congr_left
  intro j _
  simp only [Function.comp_apply, Nat.cast_succ]
  ring

theorem chainList_succ (c : Int) (k : Nat) :
    chainList c (k + 1) = c :: chainList (c + 1) k := by
  simp only [chainList, List.range_succ_eq_map, List.map_cons, List.map_map,
    Nat.cast_zero, add_zero]
  congr 1
  apply List.map_congr_left
  intro j _
  simp only [Function.comp_apply, Nat.cast_succ]
  ring

theorem descChain_reverse (m : Int) (k : Nat) :
    (descChain m k).reverse = chainList (m - (k : Int) + 1) k := by
  induction k with
  | zero => simp [descChain, chainList]
  | succ k ih =>
    have h1 : descChain m (k + 1) = descChain m k ++ [m - (k : Int)] := by
      simp [descChain, List.range_succ]
    rw [h1, List.reverse_append, ih]
    simp only [List.reverse_cons, List.reverse_nil, List.nil_append,
      List.singleton_append]
    have h2 : m - ((k : Nat) + 1 : Nat) + 1 = m - (k : Int) := by push_cast; ring
    rw [h2, chainList_succ]

theorem chainList_ne_nil (c : Int) (k : Nat) (hk : 1 ≤ k) : chainList c k ≠ [] := by
  simp only [chainList, ne_eq, List.map_eq_nil_iff, List.range_eq_nil]
  omega

theorem streakFrom_take (t g : Int) :
    ∀ (l : List Int) (i : Nat),
      l.take (streakFrom l t g i) =
        descChain (t - (g + (i : Int))) (streakFrom l t g i) := by
  intro l
  induction l with
  | nil => intro i; simp [streakFrom, descChain]
  | cons d rest ih =>
    intro i
    by_cases hd : d = t - (g + (i : Int))
    · have hs : streakFrom (d :: rest) t g i = streakFrom rest t g (i + 1) + 1 := by
        simp [streakFrom, hd]
      rw [hs, List.take_succ_cons, descChain_succ, ih (i + 1)]
      have h2 : t - (g + ((i + 1 : Nat) : Int)) = t - (g + (i : Int)) - 1 := by
        push_cast; ring
      rw [h2, hd]
    · simp [streakFrom, hd, descChain]

/-- Functional core of `longestAux`: the best streak reachable from the
current position, with the running streak at `cur`. -/
def bestFrom : Int → List Int → Nat → Nat
  | _, [], cur => cur
  | p, d :: rest, cur =>
    if d - p = 1 then bestFrom d rest (cur + 1)
    else max cur (bestFrom d rest 1)

theorem le_bestFrom : ∀ (l : List Int) (p : Int) (cur : Nat), cur ≤ bestFrom p l cur := by
  intro l
  induction l with
  | nil => intro p cur; simp [bestFrom]
  | cons d rest ih =>
    intro p cur
    simp only [bestFrom]
    split
    · exact le_trans (Nat.le_succ cur) (ih d (cur + 1))
    · exact Nat.le_max_left _ _

theorem longestAux_eq_bestFrom :
    ∀ (l : List Int) (p : Int) (cur longest : Nat), 1 ≤ cur → cur ≤ longest →
      longestAux p l cur longest = max longest (bestFrom p l cur) := by
  intro l
  induction l with
  | nil =>
    intro p cur longest h1 h2
    simp only [longestAux, bestFrom]
    exact (Nat.max_eq_left h2).symm
  | cons d rest ih =>
    intro p cur longest h1 h2
    by_cases hdp : d - p = 1
    · simp only [longestAux, bestFrom, if_pos hdp]
      rw [ih d (cur + 1) (max longest (cur + 1)) (by omega) (Nat.le_max_right _ _)]
      have hb : cur + 1 ≤ bestFrom d rest (cur + 1) := le_bestFrom _ _ _
      rw [Nat.max_assoc, Nat.max_eq_right hb]
    · simp only [longestAux, bestFrom, if_neg hdp]
      rw [ih d 1 longest le_rfl (le_trans h1 h2)]
      rw [← Nat.max_assoc, Nat.max_eq_left h2]

theorem bestFrom_chain : ∀ (k : Nat) (c : Int) (cur : Nat),
    cur + k ≤ bestFrom c (chainList (c + 1) k) cur := by
  intro k
  induction k with
  | zero => intro c cur; simp [chainList, bestFrom]
  | succ k ih =>
    intro c cur
    rw [chainList_succ]
    simp only [bestFrom]
    have h1 : c + 1 - c = 1 := by ring
    rw [if_pos h1]
    have := ih (c + 1) (cur + 1)
    omega

theorem bestFrom_suffix : ∀ (l₁ : List Int) (p : Int) (cur : Nat) (c : Int) (k : Nat),
    1 ≤ k → k ≤ bestFrom p (l₁ ++ chainList c k) cur := by
  intro l₁
  induction l₁ with
  | nil =>
    intro p cur c k hk
    obtain ⟨k', rfl⟩ : ∃ k', k = k' + 1 := ⟨k - 1, by omega⟩
    rw [List.nil_append, chainList_succ]
    simp only [bestFrom]
    split
    · have := bestFrom_chain k' c (cur + 1)
      omega
    · have h1 := bestFrom_chain k' c 1
      exact le_trans (by omega) (le_trans h1 (Nat.le_max_right _ _))
  | cons x l₁' ih =>
    intro p cur c k hk
    rw [List.cons_append]
    simp only [bestFrom]
    split
    · exact ih x (cur + 1) c k hk
    · exact le_trans (ih x 1 c k hk) (Nat.le_max_right _ _)

theorem sortAsc_nil_iff (l : List Int) : sortAsc l = [] ↔ l = [] := by
  constructor
  · intro hs
    have h1 := congrArg List.length hs
    simp only [sortAsc, List.length_insertionSort, List.length_nil] at h1
    exact List.length_eq_zero.mp h1
  · rintro rfl
    rfl

theorem sortDesc_nil_iff (l : List Int) : sortDesc l = [] ↔ l = [] := by
  unfold sortDesc
  rw [List.reverse_eq_nil_iff]
  exact sortAsc_nil_iff l

/-- Any ascending consecutive run sitting at the end of the sorted list
bounds `longestStreakOf` from below. -/
theorem le_longestStreakOf (dates : List Int) (c : Int) (k : Nat) (hk : 1 ≤ k)
    (l₁ : List Int) (hdec : sortAsc dates = l₁ ++ chainList c k) :
    k ≤ longestStreakOf dates := by
  have hne : dates ≠ [] := by
    intro hd
    rw [(sortAsc_nil_iff dates).mpr hd] at hdec
    exact chainList_ne_nil c k hk (List.append_eq_nil.mp hdec.symm).2
  unfold longestStreakOf
  rw [if_neg hne]
  rcases hsa : sortAsc dates with _ | ⟨a, rest⟩
  · exact absurd ((sortAsc_nil_iff dates).mp hsa) hne
  · rw [hsa] at hdec
    show k ≤ longestAux a rest 1 1
    rw [longestAux_eq_bestFrom rest a 1 1 le_rfl le_rfl]
    cases l₁ with
    | nil =>
      rw [List.nil_append] at hdec
      obtain ⟨k', rfl⟩ : ∃ k', k = k' + 1 := ⟨k - 1, by omega⟩
      rw [chainList_succ] at hdec
      obtain ⟨ha, hrest⟩ := List.cons_eq_cons.mp hdec
      subst ha
      rw [hrest]
      have := bestFrom_chain k' a 1
      exact le_trans (by omega) (le_trans this (Nat.le_max_right _ _))
    | cons x l₁' =>
      rw [List.cons_append] at hdec
      obtain ⟨ha, hrest⟩ := List.cons_eq_cons.mp hdec
      subst ha
      rw [hrest]
      exact le_trans (bestFrom_suffix l₁' a 1 c k hk) (Nat.le_max_right _ _)

/-- Core of claim C2: on any date list, the current-streak algorithm never
exceeds the longest-streak algorithm. -/
theorem currentStreakOf_le_longestStreakOf (today : Int) (dates : List Int) :
    currentStreakOf today dates ≤ longestStreakOf dates := by
  unfold currentStreakOf
  split
  · exact Nat.zero_le _
  dsimp only
  split
  · exact Nat.zero_le _
  set g := today - (sortDesc dates).headD 0 with hg
  set s := streakFrom (sortDesc dates) today g 0 with hs
  rcases Nat.eq_zero_or_pos s with h0 | hpos
  · rw [h0]; exact Nat.zero_le _
  have htake : (sortDesc dates).take s = descChain (today - g) s := by
    have := streakFrom_take today g (sortDesc dates) 0
    rw [← hs] at this
    simpa using this
  have hrev : sortAsc dates =
      ((sortDesc dates).drop s).reverse ++ chainList (today - g - (s : Int) + 1) s := by
    calc sortAsc dates = (sortDesc dates).reverse := by
          simp [sortDesc, List.reverse_reverse]
      _ = ((sortDesc dates).take s ++ (sortDesc dates).drop s).reverse := by
          rw [List.take_append_drop]
      _ = ((sortDesc dates).drop s).reverse ++ ((sortDesc dates).take s).reverse := by
          rw [List.reverse_append]
      _ = ((sortDesc dates).drop s).reverse ++ chainList (today - g - (s : Int) + 1) s := by
          rw [htake, descChain_reverse]
  exact le_longestStreakOf dates _ s hpos _ hrev

theorem filteredDates_nil (h : Habit) (he : h.entries = []) : filteredDates h = [] := by
  simp [filteredDates, he]

/-- The number branch of `getHabitStreak` is the checkbox algorithm run on
the target-filtered entry dates. -/
theorem getHabitStreak_number (today : Int) (h : Habit) (ht : h.type = .number) :
    getHabitStreak today h = currentStreakOf today (filteredDates h) := by
  unfold getHabitStreak
  rw [ht]
  by_cases he : h.entries = []
  · rw [if_pos he, filteredDates_nil h he]
    rfl
  · rw [if_neg he]
    unfold currentStreakOf
    by_cases hf : filteredDates h = []
    · rw [if_pos hf]
      dsimp only
      rw [if_pos ((sortDesc_nil_iff _).mpr hf)]
    · dsimp only
      rw [if_neg ((sortDesc_nil_iff _).not.mpr hf), if_neg hf]

/-- The number branch of `getLongestStreak` is the checkbox algorithm run on
the target-filtered entry dates. -/
theorem getLongestStreak_number (h : Habit) (ht : h.type = .number) :
    getLongestStreak h = longestStreakOf (filteredDates h) := by
  unfold getLongestStreak
  rw [ht]
  show (if h.entries = [] then 0
    else match sortAsc (filteredDates h) with
      | [] => 0
      | a :: rest => longestAux a rest 1 1) = _
  by_cases he : h.entries = []
  · rw [if_pos he, filteredDates_nil h he]
    rfl
  · rw [if_neg he]
    unfold longestStreakOf
    by_cases hf : filteredDates h = []
    · rw [if_pos hf, hf]
      rfl
    · rw [if_neg hf]

theorem getHabitStreak_checkbox (today : Int) (h : Habit) (ht : h.type = .checkbox) :
    getHabitStreak today h = currentStreakOf today h.completedDates := by
  unfold getHabitStreak
  rw [ht]

theorem getLongestStreak_checkbox (h : Habit) (ht : h.type = .checkbox) :
    getLongestStreak h = longestStreakOf h.completedDates := by
  unfold getLongestStreak
  rw [ht]

/-!
## Claim theorems
-/

/-- C1: for a Checkbox habit with non-empty `completedDates`, the current
streak is 0 whenever the whole-day gap between today and the most recent
completed date exceeds 1, and otherwise is exactly the length of the maximal
prefix of the descending-sorted dates whose entry at index `i` equals
`today - (gap + i)`: every index below the result matches, and the result is
maximal (it either exhausts the list or sits at the first mismatch). -/
theorem checkbox_current_streak_spec (today : Int) (h : Habit)
    (ht : h.type = .checkbox) (hne : h.completedDates ≠ []) :
    (1 < today - (sortDesc h.completedDates).headD 0 →
      getHabitStreak today h = 0) ∧
    (¬ 1 < today - (sortDesc h.completedDates).headD 0 →
      getHabitStreak today h ≤ (sortDesc h.completedDates).length ∧
      (∀ i : Nat, i < getHabitStreak today h →
        (sortDesc h.completedDates).getD i 0 =
          today - (today - (sortDesc h.completedDates).headD 0 + (i : Int))) ∧
      (getHabitStreak today h = (sortDesc h.completedDates).length ∨
        (sortDesc h.completedDates).getD (getHabitStreak today h) 0 ≠
          today - (today - (sortDesc h.completedDates).headD 0 +
            (getHabitStreak today h : Int)))) := by
  have hval : getHabitStreak today h =
      if 1 < today - (sortDesc h.completedDates).headD 0 then 0
      else streakFrom (sortDesc h.completedDates) today
        (today - (sortDesc h.completedDates).headD 0) 0 := by
    rw [getHabitStreak_checkbox today h ht]
    unfold currentStreakOf
    rw [if_neg hne]
  constructor
  · intro hgap
    rw [hval, if_pos hgap]
  · intro hgap
    rw [hval, if_neg hgap]
    set sorted := sortDesc h.completedDates with hsorted
    set g := today - sorted.headD 0 with hgdef
    refine ⟨streakFrom_le_length today g sorted 0, ?_, ?_⟩
    · intro i hi
      have := streakFrom_matches today g sorted 0 i hi
      simpa using this
    · have := streakFrom_maximal today g sorted 0
      simpa using this

/-- Concrete checkbox habit completed on days 10, 9 and 7. -/
def habitW1 : Habit :=
  ⟨"w1", "run", none, "#10b981", .checkbox, none, none, 0, [10, 9, 7], []⟩

/-- C1 witness: `habitW1` evaluated with today = 10; the hypotheses hold,
the streak computes to 2, and instantiating the theorem bounds it by the
sorted length. -/
theorem checkbox_current_streak_spec_witness :
    habitW1.type = .checkbox ∧ habitW1.completedDates ≠ [] ∧
    getHabitStreak 10 habitW1 = 2 ∧
    getHabitStreak 10 habitW1 ≤ (sortDesc habitW1.completedDates).length :=
  ⟨rfl, by decide, by decide,
    ((checkbox_current_streak_spec 10 habitW1 rfl (by decide)).2 (by decide)).1⟩

/-- C2: for every habit (checkbox or number) the longest streak is at least
the current streak. -/
theorem longestStreak_ge_currentStreak (today : Int) (h : Habit) :
    getHabitStreak today h ≤ getLongestStreak h := by
  cases ht : h.type with
  | checkbox =>
    rw [getHabitStreak_checkbox today h ht, getLongestStreak_checkbox h ht]
    exact currentStreakOf_le_longestStreakOf today h.completedDates
  | number =>
    rw [getHabitStreak_number today h ht, getLongestStreak_number h ht]
    exact currentStreakOf_le_longestStreakOf today (filteredDates h)

theorem filteredDates_entries (h : Habit) (ents : List Entry) :
    filteredDates { h with entries := ents } =
      (ents.filter (fun x => targetOrOne h ≤ x.value)).map (·.date) := rfl

theorem filter_drop_below_target (h : Habit) (e : Entry)
    (hlt : e.value < targetOrOne h) (pre post : List Entry) :
    (pre ++ e :: post).filter (fun x => targetOrOne h ≤ x.value) =
      (pre ++ post).filter (fun x => targetOrOne h ≤ x.value) := by
  rw [List.filter_append, List.filter_append, List.filter_cons]
  simp [not_le.mpr hlt]

/-- C3: for a Number habit the current and longest streaks are the checkbox
algorithms applied to the dates of the entries meeting the target (and the
checkbox streaks are those same algorithms on `completedDates`); an entry
whose value is below the target never changes either streak, wherever it
sits among the entries. -/
theorem number_streak_respects_target (today : Int) (h : Habit) (e : Entry)
    (ht : h.type = .number) (hlt : e.value < targetOrOne h) :
    getHabitStreak today h = currentStreakOf today (filteredDates h) ∧
    getLongestStreak h = longestStreakOf (filteredDates h) ∧
    (∀ hc : Habit, hc.type = .checkbox →
      getHabitStreak today hc = currentStreakOf today hc.completedDates ∧
      getLongestStreak hc = longestStreakOf hc.completedDates) ∧
    (∀ pre post : List Entry,
      getHabitStreak today { h with entries := pre ++ e :: post } =
        getHabitStreak today { h with entries := pre ++ post } ∧
      getLongestStreak { h with entries := pre ++ e :: post } =
        getLongestStreak { h with entries := pre ++ post }) := by
  have htype : ∀ ents : List Entry, ({ h with entries := ents } : Habit).type = .number :=
    fun _ => ht
  have hfd : ∀ pre post : List Entry,
      filteredDates { h with entries := pre ++ e :: post } =
        filteredDates { h with entries := pre ++ post } := by
    intro pre post
    rw [filteredDates_entries, filteredDates_entries, filter_drop_below_target h e hlt]
  refine ⟨getHabitStreak_number today h ht, getLongestStreak_number h ht,
    fun hc hct => ⟨getHabitStreak_checkbox today hc hct, getLongestStreak_checkbox hc hct⟩,
    fun pre post => ⟨?_, ?_⟩⟩
  · rw [getHabitStreak_number today _ (htype _), getHabitStreak_number today _ (htype _),
      hfd pre post]
  · rw [getLongestStreak_number _ (htype _), getLongestStreak_number _ (htype _),
      hfd pre post]

/-- Concrete number habit with daily target 5 and one qualifying entry. -/
def habitW3 : Habit :=
  ⟨"w3", "water", none, "#10b981", .number, some 5, some "cups", 0, [], [⟨3, 6⟩]⟩

/-- Concrete below-target entry for `habitW3`. -/
def entryW3 : Entry := ⟨4, 2⟩

/-- C3 witness: `habitW3` with the below-target entry `entryW3`; all
hypotheses hold at this input and the below-target entry leaves the current
streak unchanged. -/
theorem number_streak_respects_target_witness :
    habitW3.type = .number ∧ entryW3.value < targetOrOne habitW3 ∧
    getHabitStreak 4 habitW3 = currentStreakOf 4 (filteredDates habitW3) ∧
    getHabitStreak 4 { habitW3 with entries := [] ++ entryW3 :: [⟨3, 6⟩] } =
      getHabitStreak 4 { habitW3 with entries := [] ++ [⟨3, 6⟩] } :=
  ⟨rfl, by decide,
    (number_streak_respects_target 4 habitW3 entryW3 rfl (by decide)).1,
    ((number_streak_respects_target 4 habitW3 entryW3 rfl (by decide)).2.2.2
      [] [⟨3, 6⟩]).1⟩

theorem foldl_add_value (f : Entry → ℚ) :
    ∀ (l : List Entry) (a : ℚ), l.foldl (fun sum e => sum + f e) a = a + (l.map f).sum := by
  intro l
  induction l with
  | nil => intro a; simp
  | cons e rest ih =>
    intro a
    simp only [List.foldl_cons, List.map_cons, List.sum_cons, ih (a + f e)]
    ring

/-- C4 counterexample input: a checkbox habit created at timestamp 0 with
two completed dates, read at `now = 0`: `totalDaysSinceCreation` is then
`max 1 ⌈0⌉ = 1` and the average is `2 / 1 = 2 > 1`. -/
def habitCex4 : Habit :=
  ⟨"c4", "hydrate", none, "#10b981", .checkbox, none, none, 0, [0, 1], []⟩

/-- C4 counterexample: the checkbox average is NOT always in `[0, 1]` — on
`habitCex4` at `now = 0` it is 2 (completed dates can outnumber the days
since creation, e.g. when past days are backfilled from the grid). -/
theorem checkbox_average_above_one : ¬ getHabitAverage 0 habitCex4 ≤ 1 := by
  have hval : getHabitAverage 0 habitCex4 = 2 := by
    show (([0, 1] : List Int).length : ℚ) / ((totalDaysSinceCreation 0 0 : Int) : ℚ) = 2
    have h1 : totalDaysSinceCreation 0 0 = 1 := by
      unfold totalDaysSinceCreation
      norm_num
    rw [h1]
    norm_num
  rw [hval]
  norm_num

/-- C4 (amended): the checkbox average is always nonnegative, and lies in
`[0, 1]` whenever the number of completed dates is at most
`totalDaysSinceCreation` (the unconditional upper bound fails, see the
counterexample); the number average equals the sum of entry values divided
by the entry count when entries are non-empty, and 0 otherwise. -/
theorem average_bounds_and_number_mean (now : Int) (h : Habit) :
    (h.type = .checkbox → 0 ≤ getHabitAverage now h ∧
      ((h.completedDates.length : Int) ≤ totalDaysSinceCreation now h.createdAt →
        getHabitAverage now h ≤ 1)) ∧
    (h.type = .number → (h.entries = [] → getHabitAverage now h = 0) ∧
      (h.entries ≠ [] →
        getHabitAverage now h =
          (h.entries.map (·.value)).sum / (h.entries.length : ℚ))) := by
  constructor
  · intro ht
    have hval : getHabitAverage now h =
        (h.completedDates.length : ℚ) /
          ((totalDaysSinceCreation now h.createdAt : Int) : ℚ) := by
      simp only [getHabitAverage, ht]
    have htd : (1 : Int) ≤ totalDaysSinceCreation now h.createdAt :=
      le_max_left 1 _
    have htdq : (0 : ℚ) < ((totalDaysSinceCreation now h.createdAt : Int) : ℚ) := by
      have : (0 : Int) < totalDaysSinceCreation now h.createdAt := by omega
      exact_mod_cast this
    constructor
    · rw [hval]
      exact div_nonneg (by positivity) (le_of_lt htdq)
    · intro hle
      rw [hval, div_le_one htdq]
      exact_mod_cast hle
  · intro ht
    constructor
    · intro hd
      simp only [getHabitAverage, ht, if_pos hd]
    · intro hd
      simp only [getHabitAverage, ht, if_neg hd]
      rw [foldl_add_value (·.value) h.entries 0, zero_add]

/-- Concrete checkbox habit created 10 days (in milliseconds) before the
read time, with one completed date. -/
def habitW4 : Habit :=
  ⟨"w4", "stretch", none, "#10b981", .checkbox, none, none, 0, [1], []⟩

/-- C4 witness: on `habitW4` at `now` = 10 days after creation, the
hypotheses hold and the average lies in `[0, 1]`. -/
theorem average_bounds_witness :
    0 ≤ getHabitAverage 864000000 habitW4 ∧ getHabitAverage 864000000 habitW4 ≤ 1 :=
  ⟨((average_bounds_and_number_mean 864000000 habitW4).1 rfl).1,
    ((average_bounds_and_number_mean 864000000 habitW4).1 rfl).2
      (by norm_num [habitW4, totalDaysSinceCreation])⟩

/-- C5: a habit with empty history (no completed dates for a checkbox
habit, no entries for a number habit) has current streak, longest streak,
average, total and standard deviation all equal to 0. -/
theorem empty_history_zero_stats (today now : Int) (h : Habit)
    (hempty : (h.type = .checkbox ∧ h.completedDates = []) ∨
      (h.type = .number ∧ h.entries = [])) :
    getHabitStreak today h = 0 ∧ getLongestStreak h = 0 ∧
    getHabitAverage now h = 0 ∧ getHabitTotal h = 0 ∧
    getHabitStandardDeviation now h = 0 := by
  rcases hempty with ⟨ht, hd⟩ | ⟨ht, hd⟩
  · refine ⟨?_, ?_, ?_, ?_, ?_⟩
    · rw [getHabitStreak_checkbox today h ht]
      unfold currentStreakOf
      rw [if_pos hd]
    · rw [getLongestStreak_checkbox h ht]
      unfold longestStreakOf
      rw [if_pos hd]
    · simp only [getHabitAverage, ht, hd, List.length_nil, Nat.cast_zero]
      exact zero_div _
    · simp only [getHabitTotal, ht, hd, List.length_nil, Nat.cast_zero]
    · simp only [getHabitStandardDeviation, ht]
  · refine ⟨?_, ?_, ?_, ?_, ?_⟩
    · rw [getHabitStreak_number today h ht, filteredDates_nil h hd]
      rfl
    · rw [getLongestStreak_number h ht, filteredDates_nil h hd]
      rfl
    · simp only [getHabitAverage, ht, if_pos hd]
    · simp only [getHabitTotal, ht, if_pos hd]
    · simp only [getHabitStandardDeviation, ht, hd, List.length_nil]
      norm_num

/-- Concrete checkbox habit with no history at all. -/
def habitW5 : Habit :=
  ⟨"w5", "read", none, "#10b981", .checkbox, none, none, 0, [], []⟩

/-- C5 witness: the freshly created `habitW5` satisfies the emptiness
hypothesis and all five statistics are 0. -/
theorem empty_history_zero_stats_witness :
    (habitW5.type = .checkbox ∧ habitW5.completedDates = []) ∧
    getHabitStreak 3 habitW5 = 0 ∧ getLongestStreak habitW5 = 0 ∧
    getHabitAverage 7 habitW5 = 0 ∧ getHabitTotal habitW5 = 0 ∧
    getHabitStandardDeviation 7 habitW5 = 0 :=
  ⟨⟨rfl, rfl⟩, empty_history_zero_stats 3 7 habitW5 (Or.inl ⟨rfl, rfl⟩)⟩

/-!
## Toggling completed dates (C10) and updating entries (C8)
-/

/-- Neutral fallback habit used for out-of-range list indexing in
statements about habit lists. -/
def defaultHabit : Habit :=
  ⟨"", "", none, "", .checkbox, none, none, 0, [], []⟩

theorem toggleDates_toggleDates_mem (dates : List Int) (d : Int)
    (hnd : dates.Nodup) (x : Int) :
    (x ∈ toggleDates (toggleDates dates d) d ↔ x ∈ dates) := by
  by_cases hmem : d ∈ dates
  · have h1 : toggleDates dates d = dates.erase d := by
      unfold toggleDates
      rw [if_pos hmem]
    have h2 : d ∉ dates.erase d := by
      intro hc
      exact absurd rfl ((List.Nodup.mem_erase_iff hnd).mp hc).1
    have h3 : toggleDates (dates.erase d) d = dates.erase d ++ [d] := by
      unfold toggleDates
      rw [if_neg h2]
    rw [h1, h3, List.mem_append, List.mem_singleton,
      List.Nodup.mem_erase_iff hnd]
    constructor
    · rintro (⟨_, hx⟩ | rfl)
      · exact hx
      · exact hmem
    · intro hx
      by_cases hxd : x = d
      · exact Or.inr hxd
      · exact Or.inl ⟨hxd, hx⟩
  · have h1 : toggleDates dates d = dates ++ [d] := by
      unfold toggleDates
      rw [if_neg hmem]
    have h2 : d ∈ dates ++ [d] := by simp
    have h3 : toggleDates (dates ++ [d]) d = dates := by
      unfold toggleDates
      rw [if_pos h2, List.erase_append_right _ hmem, List.erase_cons_head,
        List.append_nil]
    rw [h1, h3]

theorem toggleOne_id (habitId : String) (date : Int) (h : Habit) :
    (toggleOne habitId date h).id = h.id := by
  unfold toggleOne
  split <;> rfl

theorem toggleOne_type (habitId : String) (date : Int) (h : Habit) :
    (toggleOne habitId date h).type = h.type := by
  unfold toggleOne
  split <;> rfl

theorem toggleOne_toggleOne_mem (habitId : String) (date : Int) (h : Habit)
    (hnd : h.completedDates.Nodup) (x : Int) :
    (x ∈ (toggleOne habitId date (toggleOne habitId date h)).completedDates ↔
      x ∈ h.completedDates) := by
  by_cases hc : h.id = habitId ∧ h.type = .checkbox
  · have h1 : toggleOne habitId date h =
        { h with completedDates := toggleDates h.completedDates date } := by
      unfold toggleOne
      rw [if_pos hc]
    have h2 : toggleOne habitId date (toggleOne habitId date h) =
        { h with completedDates := toggleDates (toggleDates h.completedDates date) date } := by
      rw [h1]
      unfold toggleOne
      rw [if_pos hc]
    rw [h2]
    exact toggleDates_toggleDates_mem h.completedDates date hnd x
  · have h1 : toggleOne habitId date h = h := by
      unfold toggleOne
      rw [if_neg hc]
    rw [h1, h1]

/-- C10: toggling the same habit and date twice returns a habit list of the
same length where each habit's completed dates form the same set as before,
provided the completed dates had no duplicates. -/
theorem toggle_twice_same_sets (habitId : String) (date : Int)
    (habits : List Habit)
    (hnd : ∀ h ∈ habits, h.completedDates.Nodup) :
    (toggleHabitCompletion habitId date
        (toggleHabitCompletion habitId date habits)).length = habits.length ∧
    ∀ i : Nat, ∀ hi : i < habits.length, ∀ x : Int,
      (x ∈ ((toggleHabitCompletion habitId date
          (toggleHabitCompletion habitId date habits)).getD i defaultHabit).completedDates ↔
        x ∈ (habits.getD i defaultHabit).completedDates) := by
  unfold toggleHabitCompletion
  rw [List.map_map]
  constructor
  · rw [List.length_map]
  · intro i hi x
    have hget : (habits.map (toggleOne habitId date ∘ toggleOne habitId date))[i]? =
        (habits[i]?).map (toggleOne habitId date ∘ toggleOne habitId date) := by
      rw [List.getElem?_map]
    rcases hx : habits[i]? with _ | h
    · rw [List.getElem?_eq_none_iff] at hx
      omega
    · have hmem : h ∈ habits := List.getElem?_mem hx
      have hD1 : (habits.map (toggleOne habitId date ∘ toggleOne habitId date)).getD i defaultHabit =
          toggleOne habitId date (toggleOne habitId date h) := by
        rw [List.getD_eq_getElem?_getD, hget, hx]
        rfl
      have hD2 : habits.getD i defaultHabit = h := by
        rw [List.getD_eq_getElem?_getD, hx]
        rfl
      rw [hD1, hD2]
      exact toggleOne_toggleOne_mem habitId date h (hnd h hmem) x

/-- Concrete habit list for the toggle witness. -/
def habitsW10 : List Habit :=
  [⟨"w10", "walk", none, "#10b981", .checkbox, none, none, 0, [3, 5], []⟩]

/-- C10 witness: toggling date 5 twice on `habitsW10` (whose dates are
duplicate-free) keeps the length and the set of completed dates. -/
theorem toggle_twice_same_sets_witness :
    (toggleHabitCompletion "w10" 5 (toggleHabitCompletion "w10" 5 habitsW10)).length =
      habitsW10.length ∧
    (5 ∈ ((toggleHabitCompletion "w10" 5 (toggleHabitCompletion "w10" 5 habitsW10)).getD
        0 defaultHabit).completedDates ↔
      5 ∈ (habitsW10.getD 0 defaultHabit).completedDates) :=
  ⟨(toggle_twice_same_sets "w10" 5 habitsW10 (by decide)).1,
    (toggle_twice_same_sets "w10" 5 habitsW10 (by decide)).2 0 (by decide) 5⟩

/-- Structural description of `updateEntries`, proved equal to it below:
replace or drop the first entry with the given date, or append a fresh one
for positive values. -/
def updateRec : List Entry → Int → ℚ → List Entry
  | [], d, v => if 0 < v then [⟨d, v⟩] else []
  | e :: rest, d, v =>
    if e.date = d then (if 0 < v then ⟨d, v⟩ :: rest else rest)
    else e :: updateRec rest d v

theorem updateEntries_cons_ne (e : Entry) (rest : List Entry) (d : Int) (v : ℚ)
    (hed : ¬ e.date = d) :
    updateEntries (e :: rest) d v = e :: updateEntries rest d v := by
  unfold updateEntries
  have hp : (e.date == d) = false := by simpa using hed
  rw [List.findIdx_cons, hp]
  simp only [cond_false, List.length_cons]
  by_cases hlt : rest.findIdx (fun x => x.date == d) < rest.length
  · rw [if_pos (by omega), if_pos hlt]
    by_cases hv : 0 < v
    · rw [if_pos hv, if_pos hv, List.set_cons_succ]
    · rw [if_neg hv, if_neg hv, List.eraseIdx_cons_succ]
  · rw [if_neg (by omega), if_neg hlt]
    by_cases hv : 0 < v
    · rw [if_pos hv, if_pos hv, List.cons_append]
    · rw [if_neg hv, if_neg hv]

theorem updateEntries_eq_updateRec :
    ∀ (entries : List Entry) (d : Int) (v : ℚ),
      updateEntries entries d v = updateRec entries d v := by
  intro entries
  induction entries with
  | nil =>
    intro d v
    unfold updateEntries updateRec
    simp [List.findIdx_nil]
  | cons e rest ih =>
    intro d v
    by_cases hed : e.date = d
    · unfold updateEntries updateRec
      have hp : (e.date == d) = true := by simpa using hed
      rw [List.findIdx_cons, hp]
      simp only [cond_true, List.length_cons]
      rw [if_pos (by omega), if_pos hed]
      by_cases hv : 0 < v
      · rw [if_pos hv, if_pos hv, List.set_cons_zero]
      · rw [if_neg hv, if_neg hv, List.eraseIdx_cons_zero]
    · rw [updateEntries_cons_ne e rest d v hed, ih]
      have hrec : updateRec (e :: rest) d v = e :: updateRec rest d v := by
        simp only [updateRec]
        rw [if_neg hed]
      rw [hrec]

theorem updateRec_filter_eq (d : Int) (v : ℚ) :
    ∀ entries : List Entry, (entries.map (·.date)).Nodup →
      (updateRec entries d v).filter (fun x => x.date == d) =
        if 0 < v then [⟨d, v⟩] else [] := by
  intro entries
  induction entries with
  | nil =>
    intro _
    unfold updateRec
    by_cases hv : 0 < v
    · rw [if_pos hv]
      simp [List.filter_cons]
    · rw [if_neg hv]
      rfl
  | cons e rest ih =>
    intro hnd
    rw [List.map_cons, List.nodup_cons] at hnd
    unfold updateRec
    by_cases hed : e.date = d
    · rw [if_pos hed]
      have hfrest : rest.filter (fun x => x.date == d) = [] := by
        rw [List.filter_eq_nil_iff]
        intro x hx hxd
        exact hnd.1 (hed ▸ (by simpa using hxd : x.date = d) ▸
          List.mem_map_of_mem (·.date) hx)
      by_cases hv : 0 < v
      · rw [if_pos hv, if_pos hv]
        simp [List.filter_cons, hfrest]
      · rw [if_neg hv, if_neg hv, hfrest]
    · rw [if_neg hed]
      have hpe : (e.date == d) = false := by simpa using hed
      rw [List.filter_cons, hpe]
      simp only [Bool.false_eq_true, if_false]
      exact ih hnd.2

theorem updateRec_mem_iff (d : Int) (v : ℚ) (entries : List Entry)
    (hnd : (entries.map (·.date)).Nodup) :
    (∃ x ∈ updateRec entries d v, x.date = d) ↔ 0 < v := by
  have hf := updateRec_filter_eq d v entries hnd
  constructor
  · rintro ⟨x, hx, hxd⟩
    by_contra hv
    rw [if_neg hv] at hf
    have hx2 : x ∈ (updateRec entries d v).filter (fun y => y.date == d) :=
      List.mem_filter.mpr ⟨hx, by simpa using hxd⟩
    rw [hf] at hx2
    exact absurd hx2 (List.not_mem_nil x)
  · intro hv
    rw [if_pos hv] at hf
    refine ⟨⟨d, v⟩, ?_, rfl⟩
    have hx2 : (⟨d, v⟩ : Entry) ∈ (updateRec entries d v).filter (fun y => y.date == d) := by
      rw [hf]
      exact List.mem_singleton.mpr rfl
    exact (List.mem_filter.mp hx2).1

theorem updateRec_filter_other (d : Int) (v : ℚ) (d' : Int) (hne : d' ≠ d) :
    ∀ entries : List Entry,
      (updateRec entries d v).filter (fun x => x.date == d') =
        entries.filter (fun x => x.date == d') := by
  have hdd : ((⟨d, v⟩ : Entry).date == d') = false := by
    simp
    exact fun hc => hne hc.symm
  intro entries
  induction entries with
  | nil =>
    unfold updateRec
    by_cases hv : 0 < v
    · rw [if_pos hv, List.filter_cons, hdd]
      simp
    · rw [if_neg hv]
  | cons e rest ih =>
    unfold updateRec
    by_cases hed : e.date = d
    · rw [if_pos hed]
      have he' : (e.date == d') = false := by
        simp [hed]
        exact fun hc => hne hc.symm
      by_cases hv : 0 < v
      · rw [if_pos hv, List.filter_cons, List.filter_cons, hdd, he']
        simp
      · rw [if_neg hv, List.filter_cons, he']
        simp
    · rw [if_neg hed, List.filter_cons, List.filter_cons, ih]

theorem updateOne_of_match (habitId : String) (d : Int) (v : ℚ) (h : Habit)
    (hid : h.id = habitId) (ht : h.type = .number) :
    updateOne habitId d v h = { h with entries := updateEntries h.entries d v } := by
  unfold updateOne
  rw [if_pos ⟨hid, ht⟩]

/-- C8: after `updateHabitEntry habitId date value`, the matching number
habit (whose entries had pairwise-distinct dates) has an entry for `date`
iff `value > 0` — and then exactly one, carrying `value` — an update with a
non-positive value deletes any entry for that date, and the entries for
every other date are unchanged. -/
theorem updateHabitEntry_spec (habitId : String) (d : Int) (v : ℚ)
    (habits : List Habit) (h : Habit) (hmem : h ∈ habits)
    (hid : h.id = habitId) (ht : h.type = .number)
    (hnd : (h.entries.map (·.date)).Nodup) :
    ∃ h' ∈ updateHabitEntry habitId d v habits,
      h'.id = h.id ∧
      h'.entries = updateEntries h.entries d v ∧
      ((∃ x ∈ h'.entries, x.date = d) ↔ 0 < v) ∧
      (0 < v → h'.entries.filter (fun x => x.date == d) = [⟨d, v⟩]) ∧
      (¬ 0 < v → h'.entries.filter (fun x => x.date == d) = []) ∧
      (∀ d' : Int, d' ≠ d →
        h'.entries.filter (fun x => x.date == d') =
          h.entries.filter (fun x => x.date == d')) := by
  refine ⟨updateOne habitId d v h, List.mem_map_of_mem _ hmem, ?_⟩
  rw [updateOne_of_match habitId d v h hid ht]
  refine ⟨rfl, rfl, ?_, ?_, ?_, ?_⟩
  · show (∃ x ∈ updateEntries h.entries d v, x.date = d) ↔ 0 < v
    rw [updateEntries_eq_updateRec]
    exact updateRec_mem_iff d v h.entries hnd
  · intro hv
    show (updateEntries h.entries d v).filter (fun x => x.date == d) = [⟨d, v⟩]
    rw [updateEntries_eq_updateRec]
    have hf := updateRec_filter_eq d v h.entries hnd
    rwa [if_pos hv] at hf
  · intro hv
    show (updateEntries h.entries d v).filter (fun x => x.date == d) = []
    rw [updateEntries_eq_updateRec]
    have hf := updateRec_filter_eq d v h.entries hnd
    rwa [if_neg hv] at hf
  · intro d' hne
    show (updateEntries h.entries d v).filter (fun x => x.date == d') =
      h.entries.filter (fun x => x.date == d')
    rw [updateEntries_eq_updateRec]
    exact updateRec_filter_other d v d' hne h.entries

/-- Concrete number habit with one entry, for the update witness. -/
def habitW8 : Habit :=
  ⟨"w8", "pushups", none, "#10b981", .number, some 10, none, 0, [], [⟨1, 12⟩]⟩

/-- Concrete habit list holding `habitW8`. -/
def habitsW8 : List Habit := [habitW8]

/-- C8 witness: updating `habitW8` with value 15 on date 2; the hypotheses
hold and the updated habit has an entry for date 2. -/
theorem updateHabitEntry_spec_witness :
    habitW8 ∈ habitsW8 ∧ (habitW8.entries.map (·.date)).Nodup ∧
    ∃ h' ∈ updateHabitEntry "w8" 2 15 habitsW8,
      h'.id = habitW8.id ∧ ((∃ x ∈ h'.entries, x.date = 2) ↔ (0 : ℚ) < 15) := by
  obtain ⟨h', hmem', hid', _, hiff, _, _, _⟩ :=
    updateHabitEntry_spec "w8" 2 15 habitsW8 habitW8 (by decide) rfl rfl (by decide)
  exact ⟨by decide, by decide, h', hmem', hid', hiff⟩

/-!
## Grid lemmas (C6, C7, C9)
-/

theorem getD_map_range {α : Type} (n i : Nat) (f : Nat → α) (d : α) (hi : i < n) :
    ((List.range n).map f).getD i d = f i := by
  rw [List.getD_eq_getElem?_getD, List.getElem?_map, List.getElem?_range hi]
  rfl

/-- The last cell of the grid (column 51, row 6) is the day cell for the
anchor date itself. -/
theorem cellAt_last (h : Habit) (today : Int) :
    cellAt (graphData h today) 51 6 = some (mkDayCell h today today) := by
  unfold cellAt graphData
  rw [getD_map_range 52 51 _ [] (by omega)]
  rw [getD_map_range 7 6 _ none (by omega)]
  dsimp only
  have hcond : (0 : Int) ≤ ((51 : Nat) : Int) * 7 + ((6 : Nat) : Int) - emptyCellsAtStart ∧
      ((51 : Nat) : Int) * 7 + ((6 : Nat) : Int) - emptyCellsAtStart < 364 := by
    decide
  rw [if_pos hcond]
  have hidx : (((51 : Nat) : Int) * 7 + ((6 : Nat) : Int) - emptyCellsAtStart).toNat = 363 := by
    decide
  rw [hidx]
  unfold allDays
  rw [getD_map_range 364 363 _ defaultDayCell (by omega)]
  congr 1
  push_cast
  ring_nf

/-- C6: for every habit and every anchor date the grid has exactly 52
columns of 7 rows each, and the cell in the last column and last row is the
cell for the anchor date "today". -/
theorem grid_shape_and_anchor (h : Habit) (today : Int) :
    (graphData h today).length = 52 ∧
    (∀ w ∈ graphData h today, w.length = 7) ∧
    ∃ c : DayCell, cellAt (graphData h today) 51 6 = some c ∧ c.date = today := by
  refine ⟨?_, ?_, mkDayCell h today today, cellAt_last h today, ?_⟩
  · unfold graphData
    rw [List.length_map, List.length_range]
  · intro w hw
    unfold graphData at hw
    obtain ⟨week, _, rfl⟩ := List.mem_map.mp hw
    rw [List.length_map, List.length_range]
  · cases htype : h.type <;> simp [mkDayCell, htype]

/-- C9: every one of the 364 grid cells is a populated day cell (never the
`null` padding value) and carries `isWithinRange = true`; the padding count
`emptyCellsAtStart` is `364 - 364 = 0`, so the `null` branch is unreachable. -/
theorem grid_cells_all_populated (h : Habit) (today : Int) :
    emptyCellsAtStart = 0 ∧
    ∀ w ∈ graphData h today, ∀ c ∈ w,
      ∃ d : DayCell, c = some d ∧ d.isWithinRange = true := by
  refine ⟨by norm_num [emptyCellsAtStart], ?_⟩
  intro w hw c hc
  unfold graphData at hw
  obtain ⟨week, hweek, rfl⟩ := List.mem_map.mp hw
  obtain ⟨day, hday, rfl⟩ := List.mem_map.mp hc
  rw [List.mem_range] at hweek hday
  dsimp only
  have hcond : (0 : Int) ≤ (week : Int) * 7 + (day : Int) - emptyCellsAtStart ∧
      (week : Int) * 7 + (day : Int) - emptyCellsAtStart < 364 := by
    unfold emptyCellsAtStart
    push_cast
    omega
  rw [if_pos hcond]
  have hidxlt : ((week : Int) * 7 + (day : Int) - emptyCellsAtStart).toNat < 364 := by
    unfold emptyCellsAtStart
    omega
  refine ⟨_, rfl, ?_⟩
  unfold allDays
  rw [getD_map_range 364 _ _ defaultDayCell hidxlt]
  have hdate : today - 363 +
      ((((week : Int) * 7 + (day : Int) - emptyCellsAtStart).toNat : Nat) : Int) ≤ today := by
    unfold emptyCellsAtStart
    omega
  cases htype : h.type <;> simp only [mkDayCell, htype, decide_eq_true_eq] <;> exact hdate

/-- C7: reading the click payload of the last grid cell (column 51, row 6)
yields exactly the triple (today, `getTodayEntry`, `isHabitCompletedToday`)
of the statistics engine, under the data-model invariant that a declared
target is positive. -/
theorem grid_roundtrip_today (h : Habit) (today : Int)
    (htgt : ∀ t : ℚ, h.target = some t → 0 < t) :
    handleCellClick (cellAt (graphData h today) 51 6) =
      some (today, getTodayEntry today h, isHabitCompletedToday today h) := by
  rw [cellAt_last]
  unfold handleCellClick
  have hwr : (mkDayCell h today today).isWithinRange = true := by
    cases htype : h.type <;> simp [mkDayCell, htype]
  dsimp only
  rw [if_pos hwr]
  cases htype : h.type with
  | checkbox => simp [mkDayCell, htype, getTodayEntry, isHabitCompletedToday]
  | number =>
    have htpos : 0 < targetOrOne h := by
      rcases htg : h.target with _ | t
      · simp [targetOrOne, htg]
      · have h1 := htgt t htg
        simp only [targetOrOne, htg]
        rw [if_neg h1.ne']
        exact h1
    simp only [mkDayCell, htype, getTodayEntry, isHabitCompletedToday]
    cases hfind : h.entries.find? (fun e => e.date == today) with
    | none => simp [hfind, not_le.mpr htpos]
    | some e => simp [hfind]

/-- Concrete checkbox habit completed on day 5, for the round-trip
witness. -/
def habitW7 : Habit :=
  ⟨"w7", "floss", none, "#10b981", .checkbox, none, none, 0, [5], []⟩

/-- C7 witness: the round trip on `habitW7` with anchor day 5 (its target
hypothesis holds vacuously). -/
theorem grid_roundtrip_today_witness :
    handleCellClick (cellAt (graphData habitW7 5) 51 6) =
      some (5, getTodayEntry 5 habitW7, isHabitCompletedToday 5 habitW7) :=
  grid_roundtrip_today habitW7 5 (fun _ ht => nomatch ht)

